import Mathlib

/-!
Verification of CLI-MinidiscStream (src/main.rs) against its specification.

Shallow embedding conventions:
* Rust `String` / `&str` / `PathBuf` values are modelled as `List Char`.
* `isize` / `usize` values are modelled as `Int` / `Nat`, with the two
  `as`-casts of the source made explicit (`isizeToUsize`, `usizeToIsize`,
  two's-complement reinterpretation modulo 2^64).
* Filesystem state is an explicit record `FS` (metadata kind per path,
  lines of a text file, directory enumeration in platform order).
* A Rust panic (`unwrap`, `expect`, `panic!`-macro) is modelled as `none` in
  an `Option`-valued result.
-/

/-- Kind of filesystem object a path resolves to, as reported by
`fs::metadata` in the source (`is_file()` vs directory). -/
inductive FileKind where
  | file : FileKind
  | dir : FileKind
deriving DecidableEq

/-- Ambient filesystem, the external collaborator of `get_audio_paths` and
`parse_playlist`: `kind p = none` means the path does not exist,
`readLines` gives the lines of a text file (`read_to_string ... .lines()`),
`dirEntries` gives the paths produced by `fs::read_dir` in
platform enumeration order. -/
structure FS where
  kind : List Char → Option FileKind
  readLines : List Char → List (List Char)
  dirEntries : List Char → List (List Char)

/-- Models `Path::exists()`: the path resolves to some filesystem object. -/
def pathExists (fs : FS) (p : List Char) : Bool := (fs.kind p).isSome

/-- Models `Path::file_name()` for ordinary paths: the final component,
i.e. everything after the last separator. -/
def rustFileNameStr (p : List Char) : List Char :=
  (p.reverse.takeWhile fun c => c != '/').reverse

/-- Models `Path::extension()`: the suffix of the file name after its last
dot; `none` when the file name has no dot at all, or when its only dot is
the leading character (hidden files such as ".bashrc" have no extension).
The special components "." and ".." are not distinguished by this model;
no claim involves them. -/
def rustExtension (p : List Char) : Option (List Char) :=
  let name := rustFileNameStr p
  let revExt := name.reverse.takeWhile fun c => c != '.'
  if revExt.length = name.length then none
  else if revExt.length + 1 = name.length then none
  else some revExt.reverse

/-- The filter list of supported audio extensions
(`valid_audio_exts` in `get_audio_paths`, main.rs line 105). -/
def valid_audio_exts : List (List Char) :=
  [['m', 'p', '3'], ['w', 'a', 'v'], ['f', 'l', 'a', 'c']]

/-- The supported playlist extensions (`playlist_exts`, main.rs line 106). -/
def playlist_exts : List (List Char) := [['m', '3', 'u', '8']]

/-- Models `line.starts_with("#")`. -/
def startsWithHash : List Char → Bool
  | '#' :: _ => true
  | _ => false

/-- One pass of the `parse_playlist` loop (main.rs lines 76-98) over the
remaining lines. Comment lines are skipped; non-existing paths are skipped
(with a printed diagnostic, not modelled); for an existing path the source
evaluates `file_path.extension().unwrap()`, so a path with no extension
panics (modelled as `none`); existing paths whose extension is not a
supported audio extension are skipped; the rest are pushed in order. -/
def playlistStep (fs : FS) : List (List Char) → Option (List (List Char))
  | [] => some []
  | line :: rest =>
    if startsWithHash line then playlistStep fs rest
    else if pathExists fs line = false then playlistStep fs rest
    else
      match rustExtension line with
      | none => none
      | some e =>
        if e ∈ valid_audio_exts then
          Option.map (fun r => line :: r) (playlistStep fs rest)
        else playlistStep fs rest

/-- Embeds `parse_playlist` (main.rs lines 73-101): reads the playlist file
line by line and filters the entries; `none` models a panic. -/
def parse_playlist (fs : FS) (path : List Char) : Option (List (List Char)) :=
  playlistStep fs (fs.readLines path)

/-- The parsed range selector: Rust's `Range<Option<isize>>` as returned by
`parse_track_ranges`. The source's field `end` is a Lean keyword, so it is
named `stop` here. -/
structure TrackRange where
  start : Option Int
  stop : Option Int
deriving DecidableEq

/-- Value of a digit string read left to right in base 10
(the accumulation performed by Rust's integer `parse`). -/
def digitsVal (s : List Char) : Nat :=
  s.foldl (fun a c => 10 * a + (c.toNat - 48)) 0

/-- Digits part of Rust's `str::parse::<isize>`: at least one character and
every character an ASCII digit. -/
def parseNatDigits (s : List Char) : Option Nat :=
  if s.isEmpty then none
  else if s.all Char.isDigit then some (digitsVal s) else none

/-- Models `str::parse::<isize>` on a 64-bit target: optional single sign,
then one or more digits, with the isize range check
(-2^63 ≤ value ≤ 2^63 - 1). -/
def rustParseIsize (s : List Char) : Option Int :=
  match s with
  | [] => none
  | c :: rest =>
    if c = '+' then
      Option.bind (parseNatDigits rest)
        (fun n => if n ≤ 2 ^ 63 - 1 then some ((n : Int)) else none)
    else if c = '-' then
      Option.bind (parseNatDigits rest)
        (fun n => if n ≤ 2 ^ 63 then some (-(n : Int)) else none)
    else
      Option.bind (parseNatDigits (c :: rest))
        (fun n => if n ≤ 2 ^ 63 - 1 then some ((n : Int)) else none)

/-- Models `str::trim`: remove whitespace from both ends (the source only
ever trims ASCII input, so `Char.isWhitespace` is an adequate model of the
Unicode predicate). -/
def rustTrim (s : List Char) : List Char :=
  ((s.dropWhile Char.isWhitespace).reverse.dropWhile Char.isWhitespace).reverse

/-- Models `str::split(':')` collected to a vector: `n` separators yield
`n + 1` segments, empty segments included, and a separator-free string
yields the single segment equal to the whole string. -/
def splitOnColon : List Char → List (List Char)
  | [] => [[]]
  | c :: rest =>
    if c = ':' then [] :: splitOnColon rest
    else
      match splitOnColon rest with
      | [] => [[c]]
      | s :: ss => (c :: s) :: ss

/-- Embeds `parse_track_ranges` (main.rs lines 38-70). Empty input gives
both bounds absent; otherwise the input is split on a colon, segment 0 (if
non-empty) is trimmed and parsed as the lower bound, and segment 1 (if
present and non-empty) is trimmed and parsed as the upper bound. A segment
that fails to parse panics in the source, modelled as `none`. -/
def parse_track_ranges (track_select_string : List Char) : Option TrackRange :=
  if track_select_string.isEmpty then some ⟨none, none⟩
  else
    let range_strs := splitOnColon track_select_string
    let seg0 := range_strs.headD []
    let lowerRes : Option (Option Int) :=
      if seg0.isEmpty then some none
      else
        match rustParseIsize (rustTrim seg0) with
        | some i => some (some i)
        | none => none
    match lowerRes with
    | none => none
    | some lower_bound =>
      if range_strs.length < 2 || (range_strs.getD 1 []).isEmpty then
        some ⟨lower_bound, none⟩
      else
        match rustParseIsize (rustTrim (range_strs.getD 1 [])) with
        | some i => some ⟨lower_bound, some i⟩
        | none => none

/-- Models the Rust cast `i as usize` for an `isize` value on a 64-bit
target: two's-complement reinterpretation, i.e. reduction modulo 2^64. -/
def isizeToUsize (i : Int) : Nat := (i % (2 : Int) ^ 64).toNat

/-- Models the Rust cast `n as isize` for a `usize` value on a 64-bit
target: reduction modulo 2^64 into the signed range. -/
def usizeToIsize (n : Nat) : Int :=
  if (n : Int) % (2 : Int) ^ 64 < (2 : Int) ^ 63 then (n : Int) % (2 : Int) ^ 64
  else (n : Int) % (2 : Int) ^ 64 - (2 : Int) ^ 64

/-- The directory-entry filter of `get_audio_paths` (main.rs line 143): the
entry's extension is present and is a supported audio extension. -/
def isAudioPath (p : List Char) : Bool :=
  match rustExtension p with
  | some e => decide (e ∈ valid_audio_exts)
  | none => false

/-- Directory contents kept by `get_audio_paths` (main.rs lines 140-147),
in enumeration order. -/
def audioFilter (entries : List (List Char)) : List (List Char) :=
  entries.filter isAudioPath

/-- The selection loop of `get_audio_paths` (main.rs lines 165-176), with
the running index made explicit: indices below `lowerU` are skipped
(`continue`), the loop breaks once `upperU != 0 && i >= upperU`, and every
other element is pushed. -/
def selectLoop : List (List Char) → Nat → Nat → Nat → List (List Char)
  | [], _, _, _ => []
  | p :: rest, i, lowerU, upperU =>
    if i < lowerU then selectLoop rest (i + 1) lowerU upperU
    else if upperU ≠ 0 ∧ upperU ≤ i then []
    else p :: selectLoop rest (i + 1) lowerU upperU

/-- Embeds `get_audio_paths` (main.rs lines 104-179). The bounds default to
0 when absent. A path that does not exist panics (`expect`), modelled as
`none`; a regular-file input with no extension panics on
`extension().unwrap()`; an audio file is returned as a singleton,
a playlist is parsed, any other file extension panics. A directory is
enumerated and filtered, a negative upper bound is replaced by
`max(track_count as isize - upper_bound.abs(), 0)`, and the selection loop
runs with both bounds cast `as usize`. `upper_bound.abs()` is modelled as
`Int.natAbs`; the theorems below exclude `upper_bound = -2^63`, where the
source's `isize::abs` itself overflows. -/
def get_audio_paths (fs : FS) (album_path : List Char) (track_range : TrackRange) :
    Option (List (List Char)) :=
  let lower_bound : Int := track_range.start.getD 0
  let upper_bound : Int := track_range.stop.getD 0
  match fs.kind album_path with
  | none => none
  | some FileKind.file =>
    (match rustExtension album_path with
     | none => none
     | some file_ext =>
       if file_ext ∈ valid_audio_exts then some [album_path]
       else if file_ext ∈ playlist_exts then parse_playlist fs album_path
       else none)
  | some FileKind.dir =>
    let folder_song_contents := audioFilter (fs.dirEntries album_path)
    let upper_bound2 : Int :=
      if upper_bound < 0 then
        max (usizeToIsize folder_song_contents.length - (upper_bound.natAbs : Int)) 0
      else upper_bound
    some (selectLoop folder_song_contents 0 (isizeToUsize lower_bound)
      (isizeToUsize upper_bound2))

/-- Models `PathBuf::join` with a relative component. -/
def joinPath (dir name : List Char) : List Char := dir ++ '/' :: name

/-- Models the cache-directory component `format!("p{0:.2}", stereo_pan)`
(main.rs line 229). The two-decimal rendering of the `f32` pan value is not
re-implemented digit by digit: the rendered digits are taken as the
argument, so that one pan value always yields one directory name, which is
the only property the claims use. -/
def panDirName (pan_repr : List Char) : List Char := 'p' :: pan_repr

/-- Result of one `preproccess_audio` run: the returned `output_files`
vector, the set of existing files afterwards, and how many times the
external SOX tool was invoked. -/
structure PreprocResult where
  output_files : List (List Char)
  fs_after : List (List Char)
  sox_invocations : Nat
deriving DecidableEq

/-- The per-file loop of `preproccess_audio` (main.rs lines 248-279),
threading the set of existing files: the output path is
`cache_dir / input file name`; if it already exists the file is reused
without invoking SOX, otherwise SOX is invoked once and (per its contract,
and since a non-zero exit aborts the whole run) creates the output file. -/
def preproccessLoop (cache_dir : List Char) :
    List (List Char) → List (List Char) → PreprocResult
  | [], fs_now => ⟨[], fs_now, 0⟩
  | input_path :: rest, fs_now =>
    let output_path := joinPath cache_dir (rustFileNameStr input_path)
    if output_path ∈ fs_now then
      let r := preproccessLoop cache_dir rest fs_now
      ⟨output_path :: r.output_files, r.fs_after, r.sox_invocations⟩
    else
      let r := preproccessLoop cache_dir rest (output_path :: fs_now)
      ⟨output_path :: r.output_files, r.fs_after, r.sox_invocations + 1⟩

/-- Embeds `preproccess_audio` (main.rs lines 225-283): the cache directory
is the pan-derived subdirectory of the output directory (`create_dir_all`,
the progress bar, and the gain arguments passed to SOX do not affect the
returned paths or the invocation count and are not modelled). -/
def preproccess_audio (fs_existing : List (List Char)) (output_dir_path : List Char)
    (audio_file_paths : List (List Char)) (pan_repr : List Char) : PreprocResult :=
  preproccessLoop (joinPath output_dir_path (panDirName pan_repr))
    audio_file_paths fs_existing

/-- Which kind of rodio output the playback of one track constructs:
a plain `Sink`, or a `SpatialSink` with listener/emitter geometry. -/
inductive SinkKind where
  | plainSink : SinkKind
  | spatialSink : SinkKind
deriving DecidableEq

/-- Embeds `pipe_audio` (main.rs lines 286-300): it opens the device
stream, decodes the file, and unconditionally constructs a plain
`Sink::try_new` sink that plays to completion. The function receives no
pan parameter and contains no spatial-sink branch; the rodio calls
themselves are external collaborators, so the claim-relevant observable is
the sink kind chosen together with the track played. -/
def pipe_audio (audio_file_path : List Char) : SinkKind × List Char :=
  (SinkKind.plainSink, audio_file_path)

/-- Embeds the playback loop of `main` (main.rs lines 360-376): every
processed song is played through `pipe_audio`; the `stereo_pan` argument is
in scope in `main` but is never consulted when playing. -/
def playbackSinks (processed_song_paths : List (List Char)) (stereo_pan : Rat) :
    List SinkKind :=
  processed_song_paths.map (fun song => (pipe_audio song).1)

/-- The condition under which the `parse_playlist` loop keeps a line, stated
as one predicate (used to characterize the playlist result as a filter):
not a comment, the path exists, and its extension is present and supported.
It intentionally mirrors the branch structure of `playlistStep`. -/
def playlistKeeps (fs : FS) (line : List Char) : Bool :=
  if startsWithHash line then false
  else if pathExists fs line = false then false
  else
    match rustExtension line with
    | some e => decide (e ∈ valid_audio_exts)
    | none => false

/-- Concrete path: the audio file a.mp3. -/
def songA : List Char := ['a', '.', 'm', 'p', '3']

/-- Concrete path: the audio file b.mp3. -/
def songB : List Char := ['b', '.', 'm', 'p', '3']

/-- Concrete path: the audio file c.mp3. -/
def songC : List Char := ['c', '.', 'm', 'p', '3']

/-- Concrete path of a directory input. -/
def dirRoot : List Char := ['a', 'l', 'b', 'u', 'm']

/-- A filesystem with one directory holding three audio files. -/
def fsThree : FS where
  kind := fun p => if p = dirRoot then some FileKind.dir else none
  readLines := fun _ => []
  dirEntries := fun p => if p = dirRoot then [songA, songB, songC] else []

/-- A filesystem with one directory holding a single audio file. -/
def fsOne : FS where
  kind := fun p => if p = dirRoot then some FileKind.dir else none
  readLines := fun _ => []
  dirEntries := fun p => if p = dirRoot then [songA] else []

/-- Concrete path: the audio file s<n>.mp3, for building larger folders. -/
def songN (n : Nat) : List Char := ['s', Char.ofNat (48 + n), '.', 'm', 'p', '3']

/-- A filesystem with one directory holding ten audio files s0.mp3..s9.mp3. -/
def fsTen : FS where
  kind := fun p => if p = dirRoot then some FileKind.dir else none
  readLines := fun _ => []
  dirEntries := fun p => if p = dirRoot then (List.range 10).map songN else []

/-- A filesystem where the input path itself is the audio file a.mp3. -/
def fsSingle : FS where
  kind := fun p => if p = songA then some FileKind.file else none
  readLines := fun _ => []
  dirEntries := fun _ => []

/-- Concrete path: the audio file b.flac. -/
def songFlac : List Char := ['b', '.', 'f', 'l', 'a', 'c']

/-- Concrete playlist line naming a path that does not exist. -/
def lineMissing : List Char := ['m', '.', 'm', 'p', '3']

/-- Concrete playlist line naming an existing non-audio file c.txt. -/
def lineText : List Char := ['c', '.', 't', 'x', 't']

/-- Concrete playlist comment line. -/
def lineComment : List Char := ['#', 'c']

/-- Concrete path of a playlist file l.m3u8. -/
def playlistPath : List Char := ['l', '.', 'm', '3', 'u', '8']

/-- A filesystem holding a playlist with a comment, two good entries, a
missing entry and a non-audio entry. -/
def fsPlaylist : FS where
  kind := fun p =>
    if p = playlistPath then some FileKind.file
    else if p = songA then some FileKind.file
    else if p = songFlac then some FileKind.file
    else if p = lineText then some FileKind.file
    else none
  readLines := fun p =>
    if p = playlistPath then [lineComment, songA, lineMissing, songFlac, lineText]
    else []
  dirEntries := fun _ => []

/-- Concrete playlist line naming an existing path with no extension. -/
def lineNoExt : List Char := ['n', 'o', 'e', 'x', 't']

/-- A filesystem whose playlist contains an existing extensionless path. -/
def fsPlaylistNoExt : FS where
  kind := fun p =>
    if p = playlistPath then some FileKind.file
    else if p = lineNoExt then some FileKind.file
    else none
  readLines := fun p => if p = playlistPath then [lineNoExt] else []
  dirEntries := fun _ => []

/-- A second concrete playlist path q.m3u8. -/
def playlistPathB : List Char := ['q', '.', 'm', '3', 'u', '8']

/-- Concrete playlist line: an existing file named Makefile (no extension). -/
def lineMakefile : List Char := ['M', 'a', 'k', 'e', 'f', 'i', 'l', 'e']

/-- A filesystem whose playlist names an existing Makefile. -/
def fsMakefile : FS where
  kind := fun p =>
    if p = playlistPathB then some FileKind.file
    else if p = lineMakefile then some FileKind.file
    else none
  readLines := fun p => if p = playlistPathB then [lineMakefile] else []
  dirEntries := fun _ => []

/-- Numeric literal for 2^63 over Nat, to feed omega. -/
theorem two_pow_63_nat : (2 : Nat) ^ 63 = 9223372036854775808 := by norm_num

/-- Numeric literal for 2^64 over Nat, to feed omega. -/
theorem two_pow_64_nat : (2 : Nat) ^ 64 = 18446744073709551616 := by norm_num

/-- Numeric literal for 2^63 over Int, to feed omega. -/
theorem two_pow_63_int : (2 : Int) ^ 63 = 9223372036854775808 := by norm_num

/-- Numeric literal for 2^64 over Int, to feed omega. -/
theorem two_pow_64_int : (2 : Int) ^ 64 = 18446744073709551616 := by norm_num

/-- The isize-to-usize cast is the identity on small non-negative values. -/
theorem isizeToUsize_of_nonneg {i : Int} (h0 : 0 ≤ i) (h1 : i < 2 ^ 63) :
    isizeToUsize i = i.toNat := by
  rw [two_pow_63_int] at h1
  unfold isizeToUsize
  rw [two_pow_64_int]
  omega

/-- The isize-to-usize cast wraps a negative value to 2^64 minus its
magnitude. -/
theorem isizeToUsize_of_neg {i : Int} (h0 : -(2 ^ 63) ≤ i) (h1 : i < 0) :
    isizeToUsize i = 18446744073709551616 - i.natAbs := by
  rw [two_pow_63_int] at h0
  unfold isizeToUsize
  rw [two_pow_64_int]
  omega

/-- The usize-to-isize cast is the identity on small values. -/
theorem usizeToIsize_small {n : Nat} (h : n < 2 ^ 63) :
    usizeToIsize n = (n : Int) := by
  rw [two_pow_63_nat] at h
  unfold usizeToIsize
  rw [two_pow_64_int, two_pow_63_int]
  omega

/-- Closed form of the selection loop of `get_audio_paths`: with the
`upper != 0` guard, an upper bound of 0 means no upper cutoff at all, and
any other upper bound is an absolute exclusive index. -/
theorem selectLoop_eq (l : List (List Char)) : ∀ i lowerU upperU : Nat,
    selectLoop l i lowerU upperU =
      if upperU = 0 then l.drop (lowerU - i)
      else (l.take (upperU - i)).drop (lowerU - i) := by
  induction l with
  | nil =>
    intro i L U
    by_cases hU : U = 0 <;> simp [selectLoop, hU]
  | cons p rest ih =>
    intro i L U
    simp only [selectLoop]
    by_cases hiL : i < L
    · rw [if_pos hiL, ih (i + 1) L U]
      by_cases hU : U = 0
      · subst hU
        rw [if_pos rfl, if_pos rfl]
        obtain ⟨k, hk⟩ : ∃ k, L - i = k + 1 := ⟨L - i - 1, by omega⟩
        rw [hk, List.drop_succ_cons]
        congr 1
        omega
      · rw [if_neg hU, if_neg hU]
        by_cases hUi : U ≤ i
        · have h1 : U - i = 0 := by omega
          have h2 : U - (i + 1) = 0 := by omega
          simp [h1, h2]
        · obtain ⟨k, hk⟩ : ∃ k, U - i = k + 1 := ⟨U - i - 1, by omega⟩
          have hk2 : U - (i + 1) = k := by omega
          obtain ⟨m, hm⟩ : ∃ m, L - i = m + 1 := ⟨L - i - 1, by omega⟩
          have hm2 : L - (i + 1) = m := by omega
          rw [hk, hm, hk2, hm2, List.take_succ_cons, List.drop_succ_cons]
    · rw [if_neg hiL]
      have hL0 : L - i = 0 := by omega
      have hL1 : L - (i + 1) = 0 := by omega
      by_cases hU : U = 0
      · subst hU
        rw [if_neg (by simp), ih (i + 1) L 0, if_pos rfl, if_pos rfl, hL0, hL1,
          List.drop_zero, List.drop_zero]
      · by_cases hUi : U ≤ i
        · rw [if_pos ⟨hU, hUi⟩, if_neg hU]
          have h1 : U - i = 0 := by omega
          simp [h1]
        · rw [if_neg (by omega), ih (i + 1) L U, if_neg hU, if_neg hU]
          obtain ⟨k, hk⟩ : ∃ k, U - i = k + 1 := ⟨U - i - 1, by omega⟩
          have hk2 : U - (i + 1) = k := by omega
          rw [hk, hk2, hL0, hL1, List.take_succ_cons, List.drop_zero, List.drop_zero]

/-- The selection loop started at index 0. -/
theorem selectLoop_zero (l : List (List Char)) (L U : Nat) :
    selectLoop l 0 L U = if U = 0 then l.drop L else (l.take U).drop L := by
  simpa using selectLoop_eq l 0 L U

/-- Directory branch of `get_audio_paths`, exposed for the selection
theorems. -/
theorem get_audio_paths_dir (fs : FS) (root : List Char) (r : TrackRange)
    (hd : fs.kind root = some FileKind.dir) :
    get_audio_paths fs root r =
      some (selectLoop (audioFilter (fs.dirEntries root)) 0
        (isizeToUsize (r.start.getD 0))
        (isizeToUsize
          (if r.stop.getD 0 < 0 then
            max (usizeToIsize (audioFilter (fs.dirEntries root)).length -
              ((r.stop.getD 0).natAbs : Int)) 0
          else r.stop.getD 0))) := by
  unfold get_audio_paths
  rw [hd]

/-- Directory branch of `get_audio_paths` with both bounds present. -/
theorem get_audio_paths_dir2 (fs : FS) (root : List Char) (off lim : Int)
    (hd : fs.kind root = some FileKind.dir) :
    get_audio_paths fs root ⟨some off, some lim⟩ =
      some (selectLoop (audioFilter (fs.dirEntries root)) 0 (isizeToUsize off)
        (isizeToUsize
          (if lim < 0 then
            max (usizeToIsize (audioFilter (fs.dirEntries root)).length -
              (lim.natAbs : Int)) 0
          else lim))) := by
  rw [get_audio_paths_dir fs root _ hd]
  rfl

/-- C1 (amended): for a directory input, a limit of exactly 0 is
indistinguishable from no upper bound (everything from the offset on is
selected), while any positive limit — including exactly 1 — acts as an
absolute exclusive cutoff index, so a limit of 1 is not unbounded. -/
theorem select_nonneg_limit_cutoff (fs : FS) (root : List Char) (off lim : Int)
    (hd : fs.kind root = some FileKind.dir)
    (hoff0 : 0 ≤ off) (hoff1 : off < 2 ^ 63)
    (hlim0 : 0 < lim) (hlim1 : lim < 2 ^ 63) :
    get_audio_paths fs root ⟨some off, some 0⟩ =
      some ((audioFilter (fs.dirEntries root)).drop off.toNat) ∧
    get_audio_paths fs root ⟨some off, some lim⟩ =
      some (((audioFilter (fs.dirEntries root)).take lim.toNat).drop off.toNat) := by
  have hlow : isizeToUsize off = off.toNat := isizeToUsize_of_nonneg hoff0 hoff1
  constructor
  · rw [get_audio_paths_dir2 fs root off 0 hd, if_neg (lt_irrefl (0 : Int)), hlow,
      show isizeToUsize 0 = 0 from by decide, selectLoop_zero, if_pos rfl]
  · rw [get_audio_paths_dir2 fs root off lim hd, if_neg (by omega : ¬lim < 0), hlow,
      isizeToUsize_of_nonneg (le_of_lt hlim0) hlim1, selectLoop_zero,
      if_neg (by omega : ¬lim.toNat = 0)]

/-- C1 witness: on a three-song directory with offset 1, limit 0 selects
both remaining songs, while limit 1 selects nothing. -/
theorem select_nonneg_limit_cutoff_witness :
    get_audio_paths fsThree dirRoot ⟨some 1, some 0⟩ = some [songB, songC] ∧
    get_audio_paths fsThree dirRoot ⟨some 1, some 1⟩ = some [] := by
  have h := select_nonneg_limit_cutoff fsThree dirRoot 1 1 (by decide) (by decide)
    (by decide) (by decide) (by decide)
  exact ⟨h.1.trans (by decide), h.2.trans (by decide)⟩

/-- C1 counterexample: the claim says a limit of exactly 1 returns every
element from the offset to the end; on a three-song directory with offset 0
and limit 1 the code returns only the first song, not all three. -/
theorem select_limit_one_not_unbounded :
    get_audio_paths fsThree dirRoot ⟨some 0, some 1⟩ = some [songA] ∧
    get_audio_paths fsThree dirRoot ⟨some 0, some 1⟩ ≠ some [songA, songB, songC] := by
  constructor
  · decide
  · decide

/-- C2 (amended): for a directory input and a negative limit whose
magnitude is smaller than the candidate count, the upper bound
len - |limit| is used as an absolute exclusive index, i.e. |limit| items
are dropped from the end of the selection. -/
theorem select_negative_limit_drop (fs : FS) (root : List Char) (off lim : Int)
    (hd : fs.kind root = some FileKind.dir)
    (hoff0 : 0 ≤ off) (hoff1 : off < 2 ^ 63)
    (hlim0 : -(2 ^ 63) < lim) (hlim1 : lim < 0)
    (hlen : lim.natAbs < (audioFilter (fs.dirEntries root)).length)
    (hlen2 : (audioFilter (fs.dirEntries root)).length < 2 ^ 63) :
    get_audio_paths fs root ⟨some off, some lim⟩ =
      some (((audioFilter (fs.dirEntries root)).take
        ((audioFilter (fs.dirEntries root)).length - lim.natAbs)).drop off.toNat) := by
  have hlen2' : (audioFilter (fs.dirEntries root)).length < 9223372036854775808 := by
    rw [← two_pow_63_nat]
    exact hlen2
  rw [get_audio_paths_dir2 fs root off lim hd, if_pos hlim1,
    usizeToIsize_small hlen2, isizeToUsize_of_nonneg hoff0 hoff1]
  have hub : isizeToUsize
      (max (((audioFilter (fs.dirEntries root)).length : Int) - (lim.natAbs : Int)) 0) =
      (audioFilter (fs.dirEntries root)).length - lim.natAbs := by
    rw [max_eq_left (by omega), isizeToUsize_of_nonneg (by omega)
      (by rw [two_pow_63_int]; omega)]
    omega
  rw [hub, selectLoop_zero, if_neg (by omega)]

/-- C2 witness: the two selections promised by the claim on a ten-song
directory: offset 3 with limit -2 yields indices 3..7, and offset 0 with
limit -1 yields the first nine songs. -/
theorem select_negative_limit_drop_witness :
    get_audio_paths fsTen dirRoot ⟨some 3, some (-2)⟩ =
      some [songN 3, songN 4, songN 5, songN 6, songN 7] ∧
    get_audio_paths fsTen dirRoot ⟨some 0, some (-1)⟩ =
      some [songN 0, songN 1, songN 2, songN 3, songN 4, songN 5, songN 6, songN 7,
        songN 8] := by
  constructor
  · exact (select_negative_limit_drop fsTen dirRoot 3 (-2) (by decide) (by decide)
      (by decide) (by decide) (by decide) (by decide) (by decide)).trans (by decide)
  · exact (select_negative_limit_drop fsTen dirRoot 0 (-1) (by decide) (by decide)
      (by decide) (by decide) (by decide) (by decide) (by decide)).trans (by decide)

/-- C2 counterexample: the claim says every negative limit drops |limit|
items from the end with upper bound max(len - |limit|, 0) used as an
exclusive index; on a one-song directory with limit -1 that exclusive index
is 0, so the claimed selection is empty, but the code returns the whole
list because the `upper != 0` guard treats 0 as unbounded. -/
theorem select_negative_limit_small_list :
    get_audio_paths fsOne dirRoot ⟨some 0, some (-1)⟩ = some [songA] ∧
    get_audio_paths fsOne dirRoot ⟨some 0, some (-1)⟩ ≠ some [] := by
  constructor
  · decide
  · decide

/-- C8: for a directory input and a negative limit whose magnitude is at
least the candidate count, the computed upper bound max(len - |limit|, 0)
is 0, which the selection loop treats as no upper bound, so everything from
the offset onward is selected rather than nothing. -/
theorem select_overlong_negative_limit_unbounded (fs : FS) (root : List Char)
    (off lim : Int)
    (hd : fs.kind root = some FileKind.dir)
    (hoff0 : 0 ≤ off) (hoff1 : off < 2 ^ 63)
    (hlim0 : -(2 ^ 63) < lim) (hlim1 : lim < 0)
    (hlen : (audioFilter (fs.dirEntries root)).length ≤ lim.natAbs) :
    get_audio_paths fs root ⟨some off, some lim⟩ =
      some ((audioFilter (fs.dirEntries root)).drop off.toNat) := by
  rw [two_pow_63_int] at hlim0
  have hlen2 : (audioFilter (fs.dirEntries root)).length < 2 ^ 63 := by
    rw [two_pow_63_nat]
    omega
  rw [get_audio_paths_dir2 fs root off lim hd, if_pos hlim1,
    usizeToIsize_small hlen2, isizeToUsize_of_nonneg hoff0 hoff1]
  have hmax : max (((audioFilter (fs.dirEntries root)).length : Int) -
      (lim.natAbs : Int)) 0 = 0 := max_eq_right (by omega)
  rw [hmax, show isizeToUsize 0 = 0 from by decide, selectLoop_zero, if_pos rfl]

/-- C8 witness: on a three-song directory, offset 1 with limit -5 selects
everything from index 1 on instead of nothing. -/
theorem select_overlong_negative_limit_unbounded_witness :
    get_audio_paths fsThree dirRoot ⟨some 1, some (-5)⟩ = some [songB, songC] := by
  exact (select_overlong_negative_limit_unbounded fsThree dirRoot 1 (-5) (by decide)
    (by decide) (by decide) (by decide) (by decide) (by decide)).trans (by decide)

/-- C9: the range parser accepts a negative offset without rejection, and
for a directory input a negative offset makes the selection empty: the
signed offset cast `as usize` wraps to 2^64 - |offset|, a skip threshold
larger than every index of any list that fits in memory. -/
theorem select_negative_offset_empty (fs : FS) (root : List Char) (off : Int)
    (limOpt : Option Int)
    (hd : fs.kind root = some FileKind.dir)
    (hoff0 : -(2 ^ 63) ≤ off) (hoff1 : off < 0)
    (hlen : (audioFilter (fs.dirEntries root)).length ≤ 2 ^ 64 - off.natAbs) :
    parse_track_ranges ['-', '3', ':'] = some ⟨some (-3), none⟩ ∧
    get_audio_paths fs root ⟨some off, limOpt⟩ = some [] := by
  refine ⟨by decide, ?_⟩
  rw [get_audio_paths_dir fs root _ hd]
  simp only [Option.getD_some]
  rw [isizeToUsize_of_neg hoff0 hoff1]
  rw [two_pow_64_nat] at hlen
  have hempty : ∀ U, selectLoop (audioFilter (fs.dirEntries root)) 0
      (18446744073709551616 - off.natAbs) U = [] := by
    intro U
    rw [selectLoop_zero]
    split_ifs
    · exact List.drop_eq_nil_of_le (by omega)
    · apply List.drop_eq_nil_of_le
      rw [List.length_take]
      omega
  rw [hempty]

/-- C9 witness: the parser accepts the selector string "-3:", and on a
three-song directory an offset of -3 selects nothing. -/
theorem select_negative_offset_empty_witness :
    parse_track_ranges ['-', '3', ':'] = some ⟨some (-3), none⟩ ∧
    get_audio_paths fsThree dirRoot ⟨some (-3), none⟩ = some [] := by
  exact select_negative_offset_empty fsThree dirRoot (-3) none (by decide) (by decide)
    (by decide) (by decide)

/-- C5: a regular-file input with a supported audio extension resolves to
exactly the one-element list holding that file, and for any regular-file
input (audio or playlist) the result does not depend on the range selector
at all. -/
theorem file_input_bypasses_selection (fs : FS) (path : List Char)
    (r r' : TrackRange) (e : List Char)
    (hf : fs.kind path = some FileKind.file) :
    (rustExtension path = some e → e ∈ valid_audio_exts →
      get_audio_paths fs path r = some [path]) ∧
    get_audio_paths fs path r = get_audio_paths fs path r' := by
  constructor
  · intro he hv
    unfold get_audio_paths
    rw [hf, he]
    dsimp only
    rw [if_pos hv]
  · unfold get_audio_paths
    rw [hf]

/-- C5 witness: the file input a.mp3 resolves to the singleton list under
the selector 1:-2, and that selector gives the same result as no selector. -/
theorem file_input_bypasses_selection_witness :
    get_audio_paths fsSingle songA ⟨some 1, some (-2)⟩ = some [songA] ∧
    get_audio_paths fsSingle songA ⟨some 1, some (-2)⟩ =
      get_audio_paths fsSingle songA ⟨none, none⟩ := by
  have h := file_input_bypasses_selection fsSingle songA ⟨some 1, some (-2)⟩
    ⟨none, none⟩ ['m', 'p', '3'] (by decide)
  exact ⟨h.1 (by decide) (by decide), h.2⟩

/-- C3 counterexample: with a pan of 1 (magnitude well above any small
epsilon) the per-track playback still uses the plain sink, not a
spatial/panned sink. -/
theorem playback_plain_despite_pan :
    playbackSinks [songA] 1 = [SinkKind.plainSink] ∧
    SinkKind.plainSink ≠ SinkKind.spatialSink := by
  constructor
  · decide
  · decide

/-- C3 (amended): playback of every track uses the plain stereo sink
whatever the pan value is; panning is applied before playback, by the
preprocessing step's channel gains, not by a spatial sink. -/
theorem playback_always_plain (songs : List (List Char)) (pan : Rat) :
    playbackSinks songs pan = List.replicate songs.length SinkKind.plainSink := by
  induction songs with
  | nil => rfl
  | cons s rest ih =>
    simp only [playbackSinks, List.map_cons, List.length_cons, List.replicate_succ]
    simp only [playbackSinks] at ih
    rw [ih]
    rfl

/-- The output paths of one preprocessing run are determined by the cache
directory and the input file names alone (hit or miss). -/
theorem preproccessLoop_outputs (cache_dir : List Char) (files : List (List Char)) :
    ∀ fs_now : List (List Char),
      (preproccessLoop cache_dir files fs_now).output_files =
        files.map (fun f => joinPath cache_dir (rustFileNameStr f)) := by
  induction files with
  | nil => intro fs_now; rfl
  | cons f rest ih =>
    intro fs_now
    simp only [preproccessLoop, List.map_cons]
    split <;> simp [ih]

/-- Files existing before a preprocessing run still exist after it. -/
theorem preproccessLoop_fs_mono (cache_dir : List Char) (files : List (List Char)) :
    ∀ (fs_now : List (List Char)) (a : List Char), a ∈ fs_now →
      a ∈ (preproccessLoop cache_dir files fs_now).fs_after := by
  induction files with
  | nil => intro fs_now a ha; exact ha
  | cons f rest ih =>
    intro fs_now a ha
    simp only [preproccessLoop]
    by_cases h : joinPath cache_dir (rustFileNameStr f) ∈ fs_now
    · rw [if_pos h]
      exact ih fs_now a ha
    · rw [if_neg h]
      exact ih _ a (List.mem_cons_of_mem _ ha)

/-- After a preprocessing run, the expected output path of every processed
track exists (it was either found or just created). -/
theorem preproccessLoop_outputs_exist (cache_dir : List Char) (files : List (List Char)) :
    ∀ (fs_now : List (List Char)) (f : List Char), f ∈ files →
      joinPath cache_dir (rustFileNameStr f) ∈
        (preproccessLoop cache_dir files fs_now).fs_after := by
  induction files with
  | nil => intro fs_now f hf; simp at hf
  | cons g rest ih =>
    intro fs_now f hf
    simp only [preproccessLoop]
    by_cases h : joinPath cache_dir (rustFileNameStr g) ∈ fs_now
    · rw [if_pos h]
      rcases List.mem_cons.mp hf with rfl | hf2
      · exact preproccessLoop_fs_mono cache_dir rest fs_now _ h
      · exact ih fs_now f hf2
    · rw [if_neg h]
      rcases List.mem_cons.mp hf with rfl | hf2
      · exact preproccessLoop_fs_mono cache_dir rest _ _ (List.mem_cons_self _ _)
      · exact ih _ f hf2

/-- When every expected output path already exists, the run makes zero tool
invocations. -/
theorem preproccessLoop_all_hit (cache_dir : List Char) (files : List (List Char)) :
    ∀ fs_now : List (List Char),
      (∀ f ∈ files, joinPath cache_dir (rustFileNameStr f) ∈ fs_now) →
      (preproccessLoop cache_dir files fs_now).sox_invocations = 0 := by
  induction files with
  | nil => intro fs_now _; rfl
  | cons g rest ih =>
    intro fs_now h
    simp only [preproccessLoop]
    rw [if_pos (h g (List.mem_cons_self _ _))]
    exact ih fs_now (fun f hf => h f (List.mem_cons_of_mem _ hf))

/-- C7: preprocessing-cache idempotence: running the preprocessing step a
second time with the identical tracks and pan value invokes the external
tool zero times, and returns the same processed-path list in the same
order. -/
theorem preproccess_cache_idempotent (fs0 : List (List Char))
    (output_dir_path : List Char) (tracks : List (List Char))
    (pan_repr : List Char) :
    (preproccess_audio (preproccess_audio fs0 output_dir_path tracks pan_repr).fs_after
        output_dir_path tracks pan_repr).sox_invocations = 0 ∧
    (preproccess_audio (preproccess_audio fs0 output_dir_path tracks pan_repr).fs_after
        output_dir_path tracks pan_repr).output_files =
      (preproccess_audio fs0 output_dir_path tracks pan_repr).output_files := by
  constructor
  · unfold preproccess_audio
    apply preproccessLoop_all_hit
    intro f hf
    exact preproccessLoop_outputs_exist _ _ _ f hf
  · unfold preproccess_audio
    rw [preproccessLoop_outputs, preproccessLoop_outputs]

/-- Characterization of the playlist loop: as long as no surviving line is
an existing path without extension (the panic case, see the C10 theorem),
the loop returns exactly the lines kept by `playlistKeeps`, in file order. -/
theorem playlistStep_eq (fs : FS) : ∀ lines : List (List Char),
    (∀ l ∈ lines, startsWithHash l = false → pathExists fs l = true →
      rustExtension l ≠ none) →
    playlistStep fs lines = some (lines.filter (playlistKeeps fs)) := by
  intro lines
  induction lines with
  | nil => intro _; rfl
  | cons line rest ih =>
    intro h
    have hrest := fun l hl => h l (List.mem_cons_of_mem _ hl)
    simp only [playlistStep, List.filter_cons]
    by_cases h1 : startsWithHash line = true
    · rw [if_pos h1, ih hrest]
      have hk : playlistKeeps fs line = false := by
        unfold playlistKeeps
        rw [if_pos h1]
      rw [hk, if_neg (by simp)]
    · rw [if_neg h1]
      by_cases h2 : pathExists fs line = false
      · rw [if_pos h2, ih hrest]
        have hk : playlistKeeps fs line = false := by
          unfold playlistKeeps
          rw [if_neg h1, if_pos h2]
        rw [hk, if_neg (by simp)]
      · rw [if_neg h2]
        have hex : rustExtension line ≠ none :=
          h line (List.mem_cons_self _ _) (by simpa using h1) (by simpa using h2)
        cases hext : rustExtension line with
        | none => exact absurd hext hex
        | some e =>
          have hk : playlistKeeps fs line = decide (e ∈ valid_audio_exts) := by
            unfold playlistKeeps
            rw [if_neg h1, if_neg h2, hext]
          rw [hk]
          dsimp only
          by_cases hv : e ∈ valid_audio_exts
          · rw [if_pos hv, ih hrest, if_pos (by simpa using hv)]
            rfl
          · rw [if_neg hv, ih hrest, if_neg (by simpa using hv)]

/-- C6 (amended): playlist loading skips comment lines, skips lines whose
path does not exist, and skips lines whose path exists with an unsupported
extension, returning the kept entries in file line order — except that a
line naming an existing path with no extension at all is not skipped but
panics (the C10 theorem); the hypothesis excludes exactly those lines. -/
theorem parse_playlist_skips (fs : FS) (path : List Char)
    (h : ∀ l ∈ fs.readLines path, startsWithHash l = false →
      pathExists fs l = true → rustExtension l ≠ none) :
    parse_playlist fs path = some ((fs.readLines path).filter (playlistKeeps fs)) :=
  playlistStep_eq fs (fs.readLines path) h

/-- C6 witness: the playlist with lines #c, a.mp3, m.mp3 (missing), b.flac,
c.txt resolves to exactly the two audio entries, in order. -/
theorem parse_playlist_skips_witness :
    parse_playlist fsPlaylist playlistPath = some [songA, songFlac] := by
  exact (parse_playlist_skips fsPlaylist playlistPath (by decide)).trans (by decide)

/-- C6 counterexample: the claim says every non-comment line whose
extension is unsupported is skipped and never causes a failure, but a
playlist whose single line names an existing extensionless path makes the
loader panic (`none`) instead of skipping it and returning the empty list. -/
theorem parse_playlist_failure_on_extensionless :
    parse_playlist fsPlaylistNoExt playlistPath = none ∧
    parse_playlist fsPlaylistNoExt playlistPath ≠
      some ((fsPlaylistNoExt.readLines playlistPath).filter
        (playlistKeeps fsPlaylistNoExt)) := by
  constructor
  · decide
  · decide

/-- C10: playlist loading is not total: a playlist line naming an existing
path with no extension (here a file named Makefile) reaches the unchecked
`extension().unwrap()` and panics instead of being skipped. -/
theorem playlist_extension_unwrap_reachable :
    fsMakefile.kind lineMakefile = some FileKind.file ∧
    rustExtension lineMakefile = none ∧
    parse_playlist fsMakefile playlistPathB = none := by
  refine ⟨by decide, by decide, by decide⟩

/-- A successfully parsed digit string contains only digits. -/
theorem parseNatDigits_digit {s : List Char} {n : Nat}
    (h : parseNatDigits s = some n) : ∀ c ∈ s, c.isDigit = true := by
  unfold parseNatDigits at h
  split_ifs at h with h1 h2
  exact fun c hc => List.all_eq_true.mp h2 c hc

/-- A string accepted by the isize parser consists of sign characters and
digits only. -/
theorem rustParseIsize_chars {s : List Char} {x : Int}
    (h : rustParseIsize s = some x) :
    ∀ c ∈ s, c = '+' ∨ c = '-' ∨ c.isDigit = true := by
  cases s with
  | nil => intro c hc; simp at hc
  | cons c0 rest =>
    intro c hc
    simp only [rustParseIsize] at h
    split_ifs at h with h1 h2
    · rcases Option.bind_eq_some.mp h with ⟨n, hn, _⟩
      rcases List.mem_cons.mp hc with rfl | hc2
      · exact Or.inl h1
      · exact Or.inr (Or.inr (parseNatDigits_digit hn c hc2))
    · rcases Option.bind_eq_some.mp h with ⟨n, hn, _⟩
      rcases List.mem_cons.mp hc with rfl | hc2
      · exact Or.inr (Or.inl h2)
      · exact Or.inr (Or.inr (parseNatDigits_digit hn c hc2))
    · rcases Option.bind_eq_some.mp h with ⟨n, hn, _⟩
      exact Or.inr (Or.inr (parseNatDigits_digit hn c hc))

/-- A non-whitespace member of a list survives dropping a whitespace
prefix. -/
theorem mem_dropWhile_of_not_whitespace (c : Char) :
    ∀ s : List Char, c ∈ s → c.isWhitespace = false →
      c ∈ s.dropWhile Char.isWhitespace := by
  intro s
  induction s with
  | nil => intro h _; simp at h
  | cons a l ih =>
    intro h hc
    rw [List.dropWhile_cons]
    by_cases ha : Char.isWhitespace a = true
    · rw [if_pos ha]
      rcases List.mem_cons.mp h with rfl | h2
      · rw [hc] at ha
        exact absurd ha (by simp)
      · exact ih h2 hc
    · rw [if_neg ha]
      exact h

/-- A non-whitespace member of a string survives trimming. -/
theorem mem_rustTrim {c : Char} {s : List Char} (h : c ∈ s)
    (hc : c.isWhitespace = false) : c ∈ rustTrim s := by
  unfold rustTrim
  rw [List.mem_reverse]
  apply mem_dropWhile_of_not_whitespace c _ _ hc
  rw [List.mem_reverse]
  exact mem_dropWhile_of_not_whitespace c s h hc

/-- A segment whose trimmed form parses as an integer contains no colon. -/
theorem colon_not_mem_of_parse {s : List Char} {x : Int}
    (h : rustParseIsize (rustTrim s) = some x) : ':' ∉ s := by
  intro hmem
  have h2 : (':' : Char) ∈ rustTrim s := mem_rustTrim hmem (by decide)
  rcases rustParseIsize_chars h ':' h2 with h3 | h3 | h3 <;>
    exact absurd h3 (by decide)

/-- A segment whose trimmed form parses as an integer is non-empty. -/
theorem parse_ne_nil {s : List Char} {x : Int}
    (h : rustParseIsize (rustTrim s) = some x) : s ≠ [] := by
  rintro rfl
  simp [rustTrim, rustParseIsize] at h

/-- Splitting always yields at least one segment. -/
theorem splitOnColon_ne_nil (s : List Char) : splitOnColon s ≠ [] := by
  induction s with
  | nil => simp [splitOnColon]
  | cons c rest ih =>
    unfold splitOnColon
    by_cases hc : c = ':'
    · rw [if_pos hc]
      simp
    · rw [if_neg hc]
      cases h : splitOnColon rest with
      | nil => simp
      | cons a as => simp

/-- A separator-free string splits into the single segment equal to
itself. -/
theorem splitOnColon_no_colon (s : List Char) (h : ':' ∉ s) :
    splitOnColon s = [s] := by
  induction s with
  | nil => rfl
  | cons c rest ih =>
    have hc : ¬c = ':' := by
      intro hh
      exact h (by rw [← hh]; exact List.mem_cons_self _ _)
    have hrest : ':' ∉ rest := fun hh => h (List.mem_cons_of_mem _ hh)
    unfold splitOnColon
    rw [if_neg hc, ih hrest]

/-- Splitting at the first separator: a colon-free prefix becomes segment
zero and the remainder is split recursively. -/
theorem splitOnColon_append (a b : List Char) (ha : ':' ∉ a) :
    splitOnColon (a ++ ':' :: b) = a :: splitOnColon b := by
  induction a with
  | nil =>
    simp [splitOnColon]
  | cons c a2 ih =>
    have hc : ¬c = ':' := by
      intro hh
      exact ha (by rw [← hh]; exact List.mem_cons_self _ _)
    have ha2 : ':' ∉ a2 := fun hh => ha (List.mem_cons_of_mem _ hh)
    rw [List.cons_append]
    simp only [splitOnColon]
    rw [if_neg hc, ih ha2]

/-- C4: the range-selector parser maps a two-segment selector with
parseable bounds to those bounds, maps each empty segment to an absent
bound, and maps the empty selector to both bounds absent. -/
theorem parse_track_ranges_roundtrip (a b : List Char) (x y : Int)
    (ha : rustParseIsize (rustTrim a) = some x)
    (hb : rustParseIsize (rustTrim b) = some y) :
    parse_track_ranges (a ++ ':' :: b) = some ⟨some x, some y⟩ ∧
    parse_track_ranges (':' :: b) = some ⟨none, some y⟩ ∧
    parse_track_ranges (a ++ [':']) = some ⟨some x, none⟩ ∧
    parse_track_ranges [':'] = some ⟨none, none⟩ ∧
    parse_track_ranges [] = some ⟨none, none⟩ := by
  have hca : ':' ∉ a := colon_not_mem_of_parse ha
  have hcb : ':' ∉ b := colon_not_mem_of_parse hb
  have hna : a ≠ [] := parse_ne_nil ha
  have hnb : b ≠ [] := parse_ne_nil hb
  have hea : a.isEmpty = false := by
    cases a
    · exact absurd rfl hna
    · rfl
  have heb : b.isEmpty = false := by
    cases b
    · exact absurd rfl hnb
    · rfl
  refine ⟨?_, ?_, ?_, by decide, by decide⟩
  · have hs : (a ++ ':' :: b).isEmpty = false := by
      cases a <;> rfl
    unfold parse_track_ranges
    rw [hs, splitOnColon_append a b hca, splitOnColon_no_colon b hcb]
    simp [hea, heb, ha, hb, List.getD_cons_succ, List.getD_cons_zero]
  · have hsplit : splitOnColon (':' :: b) = [] :: splitOnColon b := by
      simpa using splitOnColon_append [] b (by simp)
    unfold parse_track_ranges
    rw [hsplit, splitOnColon_no_colon b hcb]
    simp [heb, hb, List.getD_cons_succ, List.getD_cons_zero]
  · have hs : (a ++ ':' :: []).isEmpty = false := by
      cases a <;> rfl
    unfold parse_track_ranges
    rw [hs, splitOnColon_append a [] hca]
    simp [hea, ha, List.getD_cons_succ, List.getD_cons_zero, splitOnColon]

/-- C4 witness: the selector 1: -2 parses to offset 1 and limit -2, with
the empty-segment and empty-string cases alongside. -/
theorem parse_track_ranges_roundtrip_witness :
    parse_track_ranges (['1'] ++ ':' :: [' ', '-', '2']) = some ⟨some 1, some (-2)⟩ ∧
    parse_track_ranges (':' :: [' ', '-', '2']) = some ⟨none, some (-2)⟩ ∧
    parse_track_ranges (['1'] ++ [':']) = some ⟨some 1, none⟩ ∧
    parse_track_ranges [':'] = some ⟨none, none⟩ ∧
    parse_track_ranges [] = some ⟨none, none⟩ :=
  parse_track_ranges_roundtrip ['1'] [' ', '-', '2'] 1 (-2) (by decide) (by decide)
